import Mathlib

/-!
Shallow embedding of the syzbot-scraper pipeline (`app.py`) and proofs of
the specification claims.  Network, HTML parsing and filesystem effects are
modelled by an explicit `World` oracle; the filesystem is an explicit log of
write operations threaded through the functions that write.
-/

namespace Syzbot

/-- Character-level embedding of Python `str.replace(old, new)` for a
single-character `old` and `new`: every occurrence of `old` is replaced. -/
def pyReplaceC (l : List Char) (a b : Char) : List Char :=
  l.map (fun c => if c = a then b else c)

/-- Embedding of Python `sep.join(parts)` at the character-list level. -/
def joinSep (sep : List Char) : List (List Char) → List Char
  | [] => []
  | [x] => x
  | x :: y :: t => x ++ sep ++ joinSep sep (y :: t)

/-- Embedding of Python `sep.join(parts)` for strings. -/
def pyJoin (sep : String) : List String → String
  | [] => ""
  | [x] => x
  | x :: y :: t => x ++ sep ++ pyJoin sep (y :: t)

/-- Fuel-driven scanner behind Python `str.split(sep)` for a non-empty
separator `s0 :: sr`: scans left to right, splitting at each
(non-overlapping) occurrence of the separator.  `fuel ≥ l.length` lets the
scan run to completion. -/
def splitGo (s0 : Char) (sr : List Char) : Nat → List Char → List (List Char)
  | _, [] => [[]]
  | 0, l => [l]
  | fuel + 1, c :: rest =>
    if c == s0 && sr.isPrefixOf rest then
      [] :: splitGo s0 sr fuel (rest.drop sr.length)
    else
      match splitGo s0 sr fuel rest with
      | [] => [[c]]
      | h :: t => (c :: h) :: t

/-- Embedding of Python `s.split(sep)` for a non-empty separator. -/
def pySplit (sep : String) (l : List Char) : List (List Char) :=
  match sep.data with
  | [] => [l]
  | s0 :: sr => splitGo s0 sr l.length l

/-- UTF-8 continuation byte. -/
def isCont (b : Nat) : Bool := decide (0x80 ≤ b ∧ b ≤ 0xBF)

/-- Constraint on the first continuation byte of a three-byte sequence. -/
def cont3ok (b b1 : Nat) : Bool :=
  isCont b1 && decide (b = 0xE0 → 0xA0 ≤ b1) && decide (b = 0xED → b1 ≤ 0x9F)

/-- Constraint on the first continuation byte of a four-byte sequence. -/
def cont4ok (b b1 : Nat) : Bool :=
  isCont b1 && decide (b = 0xF0 → 0x90 ≤ b1) && decide (b = 0xF4 → b1 ≤ 0x8F)

/-- Fuel-driven UTF-8 decoder that drops undecodable bytes: the embedding
of Python `bytes.decode('utf-8', errors='ignore')`.  `fuel ≥ l.length`
lets it consume the whole input. -/
def utf8Go : Nat → List Nat → List Char
  | _, [] => []
  | 0, _ :: _ => []
  | fuel + 1, b :: rest =>
    if b ≤ 0x7F then
      Char.ofNat b :: utf8Go fuel rest
    else if 0xC2 ≤ b ∧ b ≤ 0xDF then
      match rest with
      | b1 :: r1 =>
        if isCont b1 then Char.ofNat ((b % 32) * 64 + (b1 % 64)) :: utf8Go fuel r1
        else utf8Go fuel rest
      | [] => []
    else if 0xE0 ≤ b ∧ b ≤ 0xEF then
      match rest with
      | b1 :: b2 :: r2 =>
        if cont3ok b b1 ∧ isCont b2 then
          Char.ofNat ((b % 16) * 4096 + (b1 % 64) * 64 + (b2 % 64)) :: utf8Go fuel r2
        else utf8Go fuel rest
      | _ => utf8Go fuel rest
    else if 0xF0 ≤ b ∧ b ≤ 0xF4 then
      match rest with
      | b1 :: b2 :: b3 :: r3 =>
        if cont4ok b b1 ∧ isCont b2 ∧ isCont b3 then
          Char.ofNat ((b % 8) * 262144 + (b1 % 64) * 4096 + (b2 % 64) * 64 + (b3 % 64))
            :: utf8Go fuel r3
        else utf8Go fuel rest
      | _ => utf8Go fuel rest
    else
      utf8Go fuel rest

/-- `content.decode('utf-8', errors='ignore')`: total, never raises. -/
def utf8DecodeIgnore (content : List Nat) : String :=
  String.mk (utf8Go content.length content)

/-- A parsed HTML node, as produced by the HTML parser: an element with a
tag name, a (possibly empty) class list, an optional `href` attribute and
children — or a text node. -/
inductive Node where
  | elem (tag : String) (classes : List String) (href : Option String) (children : List Node)
  | text (s : String)

mutual

/-- All element/text descendants of `n` (excluding `n` itself) satisfying
`p`, in document (preorder) order: the embedding of `soup.find_all(...)`. -/
def findAllNode (p : Node → Bool) : Node → List Node
  | .text _ => []
  | .elem _ _ _ cs => findAllList p cs

/-- `findAllNode` over a list of sibling subtrees, in document order. -/
def findAllList (p : Node → Bool) : List Node → List Node
  | [] => []
  | n :: rest => (if p n then [n] else []) ++ findAllNode p n ++ findAllList p rest

end

mutual

/-- Concatenated text content of a node: the embedding of BS4 `.text`. -/
def nodeText : Node → String
  | .text s => s
  | .elem _ _ _ cs => nodeTextList cs

/-- `nodeText` over a list of sibling subtrees. -/
def nodeTextList : List Node → String
  | [] => ""
  | n :: rest => nodeText n ++ nodeTextList rest

end

/-- Tag name of an element node. -/
def Node.tagName : Node → Option String
  | .elem t _ _ _ => some t
  | .text _ => none

/-- `href` attribute of a node. -/
def Node.hrefAttr : Node → Option String
  | .elem _ _ h _ => h
  | .text _ => none

/-- Tag-name test, the `find_all("tag")` filter. -/
def isTag (t : String) (n : Node) : Bool := n.tagName == some t

/-- Class-membership test, the `class_="..."` filter (matches when the
class is among the node's classes). -/
def hasClass (cl : String) : Node → Bool
  | .elem _ cs _ _ => cs.contains cl
  | .text _ => false

/-- `find_all("td", class_=cl)` filter. -/
def tdWith (cl : String) (n : Node) : Bool := isTag "td" n && hasClass cl n

/-- `find_all("a", href=True)` filter. -/
def isAnchorHref (n : Node) : Bool := isTag "a" n && n.hrefAttr.isSome

/-- An HTTP response: status code, body as text and body as bytes
(`requests.Response.status_code` / `.text` / `.content`). -/
structure Response where
  status : Nat
  text : String
  content : Option (List Nat)

/-- Outcome of one `requests.get` call: a connect timeout, some other
request exception, or a completed exchange (of any status). -/
inductive FetchResult where
  | connectTimeout
  | requestError
  | success (r : Response)

/-- The external world: what each GET returns, what the HTML parser
produces from a body, and which paths can be opened for writing. -/
structure World where
  fetch : String → FetchResult
  parse : String → Node
  openOk : String → Bool

/-- What one `open`+`write` leaves on disk: raw bytes (mode `wb+`) or
decoded text (mode `w+`). -/
inductive FileContent where
  | binary (bytes : List Nat)
  | textual (s : String)
deriving DecidableEq

/-- A completed file write: target path, whether binary mode was used, and
the content written. -/
structure WriteOp where
  path : String
  binMode : Bool
  data : FileContent
deriving DecidableEq

def BASE_URL : String := "https://syzkaller.appspot.com"

def UPSTREAM : String := "https://syzkaller.appspot.com/upstream"

def LTS_5_15 : String := "https://syzkaller.appspot.com/linux-5.15"

def LTS_6_1 : String := "https://syzkaller.appspot.com/linux-6.1"

/-- `fetch_url`: a GET with error handling — a connect timeout or any
other request exception is logged and turned into `None`; a completed
exchange is returned as-is, whatever its status code.  (The rate-limiting
decorator only sleeps and does not change the returned value.) -/
def fetch_url (w : World) (url : String) : Option Response :=
  match w.fetch url with
  | .connectTimeout => none
  | .requestError => none
  | .success r => some r

/-- `sanitize_directory_name`: chained `str.replace` of space, hyphen,
slash and colon by underscore. -/
def sanitize_directory_name (title : String) : String :=
  String.mk (pyReplaceC (pyReplaceC (pyReplaceC (pyReplaceC
    title.data ' ' '_') '-' '_') '/' '_') ':' '_')

/-- `create_output_directory`: the path `output/<release with hyphens as
underscores>/<dir_name>` (the `mkdir(parents=True, exist_ok=True)` side
effect creates it idempotently and is not otherwise observable here). -/
def create_output_directory (dir_name release : String) : String :=
  "output/" ++ String.mk (pyReplaceC release.data '-' '_') ++ "/" ++ dir_name

/-- The hrefs of all `a[href]` anchors below one table cell, in document
order (`td.find_all("a", href=True)` and `link["href"]`). -/
def anchorHrefsVerbatim (td : Node) : List String :=
  (findAllNode isAnchorHref td).map (fun a => a.hrefAttr.getD "")

/-- `extract_asset_links`: extend with the hrefs found under every
`td.assets`, then extend with `BASE_URL + href` for every href found under
every `td.repro`. -/
def extract_asset_links (soup : Node) : List String :=
  let asset_links := (findAllNode (tdWith "assets") soup).foldl
    (fun acc td => acc ++ anchorHrefsVerbatim td) []
  (findAllNode (tdWith "repro") soup).foldl
    (fun acc td => acc ++ (anchorHrefsVerbatim td).map (fun h => BASE_URL ++ h)) asset_links

/-- `os.path.join(a, b)` for a second component that contains no slash. -/
def os_path_join (a b : String) : String :=
  if a = "" then b
  else if a.data.getLast? = some '/' then a ++ b
  else a ++ "/" ++ b

/-- The file path `save_asset` writes to:
`os.path.join(output_dir, name.split('/')[-1])`. -/
def savePathOf (output_dir name : String) : String :=
  os_path_join output_dir (String.mk ((pySplit "/" name.data).getLastD []))

/-- `save_asset`: write `content` to `os.path.join(output_dir,
name.split('/')[-1])`, raw in binary mode and UTF-8-decoded (errors
ignored) in text mode; an `IOError` on open/write is caught and turned
into `False` with nothing written. -/
def save_asset (w : World) (fs : List WriteOp) (output_dir name : String)
    (content : List Nat) (is_binary : Bool) : Bool × List WriteOp :=
  let filepath := savePathOf output_dir name
  if w.openOk filepath then
    (true, fs ++ [⟨filepath, is_binary,
      if is_binary then .binary content else .textual (utf8DecodeIgnore content)⟩])
  else
    (false, fs)

/-- The asset name derived in `download_single_asset`:
`url.split("tag=")[-1].split("&")[0]`. -/
def assetName (url : String) : String :=
  String.mk ((pySplit "&" ((pySplit "tag=" url.data).getLastD [])).headD [])

/-- Boolean substring check at the character-list level: the embedding of
Python `sub in s` on strings. -/
def containsSub (sub : List Char) : List Char → Bool
  | [] => sub.isEmpty
  | c :: rest => sub.isPrefixOf (c :: rest) || containsSub sub rest

/-- The binary/text classification in `download_single_asset`:
`".raw" in name or ".tar.gz" in name`. -/
def isBinaryName (name : String) : Bool :=
  containsSub ".raw".data name.data || containsSub ".tar.gz".data name.data

/-- `download_single_asset`: derive the name, fetch, fail when the fetch
failed or the body is absent, otherwise save with the binary flag from the
name heuristic. -/
def download_single_asset (w : World) (fs : List WriteOp) (url output_dir : String) :
    Bool × List WriteOp :=
  let name := assetName url
  match fetch_url w url with
  | none => (false, fs)
  | some resp =>
    match resp.content with
    | none => (false, fs)
    | some c => save_asset w fs output_dir name c (isBinaryName name)

/-- `soup.title`: the first `<title>` element of the document, if any. -/
def soupTitle (soup : Node) : Option Node :=
  (findAllNode (isTag "title") soup).head?

/-- The per-page output directory resolved by `download_assets`: the
literal `main_page` for the listing page, the sanitized title otherwise,
passed through `create_output_directory`. -/
def pageOutputDir (release : String) (is_main_page : Bool) (title : Node) : String :=
  create_output_directory
    (if is_main_page then "main_page" else sanitize_directory_name (nodeText title)) release

/-- `download_assets`: fetch the page, fail when the fetch failed or there
is no title; otherwise resolve the output directory, extract the asset
links, succeed immediately (warning only) when there are none, otherwise
attempt every asset and fail exactly when no asset succeeded. -/
def download_assets (w : World) (fs : List WriteOp) (url release : String)
    (is_main_page : Bool) : Bool × List WriteOp :=
  match fetch_url w url with
  | none => (false, fs)
  | some resp =>
    let soup := w.parse resp.text
    match soupTitle soup with
    | none => (false, fs)
    | some title =>
      let output_dir := pageOutputDir release is_main_page title
      let asset_links := extract_asset_links soup
      if asset_links.isEmpty then
        (true, fs)
      else
        let r := asset_links.foldl
          (fun st link =>
            (if (download_single_asset w st.2 link output_dir).1 then st.1 + 1 else st.1,
             (download_single_asset w st.2 link output_dir).2))
          ((0 : Nat), fs)
        if r.1 = 0 then (false, r.2) else (true, r.2)

/-- The Python exceptions `extract_bug_links` can raise: `IndexError` from
`find_all("tbody")[1]`, `AttributeError` from `.find` on a missing title
cell, `TypeError` from subscripting a missing anchor. -/
inductive PyError where
  | indexError
  | attributeError
  | typeError
deriving DecidableEq

/-- The loop body of `extract_bug_links` over the data rows: for each row
collect the cells' text (joined by spaces, newlines replaced) and the
title-cell anchor's absolute link; a missing title cell or anchor raises. -/
def buildRows : List Node → Except PyError (List String × List String)
  | [] => .ok ([], [])
  | row :: rest =>
    let cells := findAllNode (isTag "td") row
    match (findAllNode (tdWith "title") row).head? with
    | none => .error .attributeError
    | some tdTitle =>
      match (findAllNode isAnchorHref tdTitle).head? with
      | none => .error .typeError
      | some a =>
        let link := a.hrefAttr.getD ""
        let row_data := cells.map nodeText
        let summary := String.mk (pyReplaceC (pyJoin " " row_data).data '\n' ' ')
        match buildRows rest with
        | .error e => .error e
        | .ok (rows, links) => .ok (summary :: rows, (BASE_URL ++ link) :: links)

/-- `extract_bug_links`: take the second `tbody` (an index error when
there are fewer than two), skip its first row, and build the parallel
summary/link lists. -/
def extract_bug_links (soup : Node) : Except PyError (List String × List String) :=
  match (findAllNode (isTag "tbody") soup)[1]? with
  | none => .error .indexError
  | some table => buildRows ((findAllNode (isTag "tr") table).drop 1)

/-- The release-to-listing-URL mapping in `main` (argparse `choices`
restricts the inputs to the three releases; anything else hits the
`sys.exit(1)` fallback). -/
def releaseUrl : String → Option String
  | "upstream" => some UPSTREAM
  | "lts-5.15" => some LTS_5_15
  | "lts-6.1" => some LTS_6_1
  | _ => none

/-- Observable outcome of one run of `main`: the process exit code, the
bug-page URLs the loop attempted in order, the URLs it recorded as failed,
and the file writes performed. -/
structure RunResult where
  exitCode : Nat
  processed : List String
  failedUrls : List String
  fs : List WriteOp

/-- `main`: resolve the release, fetch the listing (exit 1 when absent),
run the listing's own asset pass (exit 1 on failure), extract the bug
links (an exception is caught by the outer handler: exit 1), then attempt
every bug page, recording failures, and complete with exit code 0. -/
def main (w : World) (release : String) : RunResult :=
  match releaseUrl release with
  | none => ⟨1, [], [], []⟩
  | some url =>
    match fetch_url w url with
    | none => ⟨1, [], [], []⟩
    | some raw_html =>
      let soup := w.parse raw_html.text
      let da := download_assets w [] url release true
      if da.1 = false then ⟨1, [], [], da.2⟩
      else
        match extract_bug_links soup with
        | .error _ => ⟨1, [], [], da.2⟩
        | .ok (_, bug_links) =>
          let st := bug_links.foldl
            (fun (acc : List String × List WriteOp) u =>
              (if (download_assets w acc.2 u release false).1 then acc.1 else acc.1 ++ [u],
               (download_assets w acc.2 u release false).2))
            ([], da.2)
          ⟨0, bug_links, st.1, st.2⟩

/-- The bug-page fixture from the repository's test suite: one `tbody`
with a header row and one data row holding an assets cell (two anchors), a
repro cell (one anchor) and a title cell. -/
def samplePage : Node :=
  .elem "html" [] none
    [ .elem "head" [] none [.elem "title" [] none [.text "Test Bug Title"]]
    , .elem "body" [] none
      [ .elem "tbody" [] none
        [ .elem "tr" [] none []
        , .elem "tr" [] none
          [ .elem "td" ["assets"] none
            [ .elem "a" [] (some "/download?tag=test.raw") [.text "Raw File"]
            , .elem "a" [] (some "/download?tag=test.txt") [.text "Text File"] ]
          , .elem "td" ["repro"] none
            [ .elem "a" [] (some "/repro?tag=repro.c") [.text "Repro File"] ]
          , .elem "td" ["title"] none
            [ .elem "a" [] (some "/bug?id=123") [.text "Bug Title"] ] ] ] ] ]

/-- A listing-page fixture with two `tbody` elements, the second holding a
header row and one data row with a title cell. -/
def listingPage : Node :=
  .elem "html" [] none
    [ .elem "head" [] none [.elem "title" [] none [.text "syzbot"]]
    , .elem "body" [] none
      [ .elem "tbody" [] none [.elem "tr" [] none []]
      , .elem "tbody" [] none
        [ .elem "tr" [] none [.elem "td" [] none [.text "Title"]]
        , .elem "tr" [] none
          [ .elem "td" ["title"] none [.elem "a" [] (some "/bug?id=123") [.text "Bug A"]]
          , .elem "td" ["stat"] none [.text "5"] ] ] ] ]

/-- The href of a row's title-cell anchor, when the row has a title cell
holding an anchor with an href (the data `extract_bug_links` reads from
each row). -/
def rowTitleHref (row : Node) : Option String :=
  ((findAllNode (tdWith "title") row).head?).bind
    (fun tdTitle => ((findAllNode isAnchorHref tdTitle).head?).bind Node.hrefAttr)

/-- The human-readable summary `extract_bug_links` builds for one row: the
cells' text joined by spaces, newlines replaced by spaces. -/
def rowSummary (row : Node) : String :=
  String.mk (pyReplaceC (pyJoin " " ((findAllNode (isTag "td") row).map nodeText)).data '\n' ' ')

/-- Success of one single-asset download, as an fs-independent predicate
(the boolean returned by `download_single_asset` does not depend on the
writes performed so far). -/
def dsaOk (w : World) (url output_dir : String) : Bool :=
  (download_single_asset w [] url output_dir).1

/-- Success of one page's asset pass, as an fs-independent predicate. -/
def daOk (w : World) (url release : String) (is_main_page : Bool) : Bool :=
  (download_assets w [] url release is_main_page).1

/-- A page with no discoverable structure at all. -/
def emptyPage : Node := Node.text ""

/-- A world where every GET times out. -/
def wTimeout : World :=
  ⟨fun _ => .connectTimeout, fun _ => emptyPage, fun _ => false⟩

/-- A world where every GET raises a generic request exception. -/
def wReqError : World :=
  ⟨fun _ => .requestError, fun _ => emptyPage, fun _ => true⟩

/-- A world where every GET succeeds, every body parses to the test-suite
bug page and every path is writable. -/
def wSample : World :=
  ⟨fun _ => .success ⟨200, "page", some [104, 105]⟩, fun _ => samplePage, fun _ => true⟩

/-- A world where every GET completes with HTTP status 500 (an error
status, but a completed exchange). -/
def wError500 : World :=
  ⟨fun _ => .success ⟨500, "err", some [104]⟩, fun _ => samplePage, fun _ => true⟩

/-- A world where every GET succeeds and echoes its URL as the body, the
listing URL parses to the two-tbody listing page and every other body
parses to a structureless page (so every bug page fails its asset pass). -/
def wListing : World :=
  ⟨fun u => .success ⟨200, u, some [104]⟩,
   fun t => if t = UPSTREAM then listingPage else emptyPage,
   fun _ => true⟩

/-! ## Theorems -/

/-- C9: `sanitize_directory_name` replaces every occurrence of space,
hyphen, forward slash, and colon with an underscore and leaves every other
character unchanged; in particular it maps `a/b:c d-e` to `a_b_c_d_e`. -/
theorem C9_sanitize_replaces_separators :
    (∀ title : String,
      sanitize_directory_name title =
        String.mk (title.data.map (fun c =>
          if c = ' ' ∨ c = '-' ∨ c = '/' ∨ c = ':' then '_' else c))) ∧
    sanitize_directory_name "a/b:c d-e" = "a_b_c_d_e" := by
  constructor
  · intro title
    simp only [sanitize_directory_name, pyReplaceC, List.map_map]
    refine congrArg String.mk (List.map_congr_left (fun c _ => ?_))
    by_cases h1 : c = ' ' <;> by_cases h2 : c = '-' <;>
      by_cases h3 : c = '/' <;> by_cases h4 : c = ':' <;>
      simp [h1, h2, h3, h4, Function.comp]
  · decide

/-- C7: `fetch_url` converts both failure kinds — connection timeout and
general request exception — into an absent (`none`) result instead of a
propagated exception. -/
theorem C7_fetch_url_absorbs_failures (w : World) (url : String) :
    (w.fetch url = .connectTimeout → fetch_url w url = none) ∧
    (w.fetch url = .requestError → fetch_url w url = none) := by
  constructor <;> intro h <;> simp [fetch_url, h]

/-- Witness for C7 at concrete worlds: a timed-out GET and an erroring GET
both yield `none`. -/
theorem C7_witness :
    fetch_url wTimeout "https://syzkaller.appspot.com/upstream" = none ∧
    fetch_url wReqError "https://syzkaller.appspot.com/upstream" = none :=
  ⟨(C7_fetch_url_absorbs_failures wTimeout _).1 rfl,
   (C7_fetch_url_absorbs_failures wReqError _).2 rfl⟩

/-- `containsSub` decides substring containment: the embedding of
Python's `in` agrees with the mathematical infix relation. -/
theorem containsSub_iff_isInfix (sub : List Char) :
    ∀ l : List Char, containsSub sub l = true ↔ sub <:+: l := by
  intro l
  induction l with
  | nil => simp [containsSub, List.isEmpty_iff, List.infix_nil]
  | cons c rest ih =>
    simp [containsSub, Bool.or_eq_true, List.isPrefixOf_iff_prefix, ih,
      List.infix_cons_iff]

/-- C10: a completed HTTP exchange is returned by `fetch_url` whatever its
status code — here an error status (`400 ≤ status`) — and
`download_single_asset` then treats it as a successful fetch, writing the
response body to disk as the asset. -/
theorem C10_error_status_written (w : World) (url dir : String) (fs : List WriteOp)
    (r : Response) (c : List Nat)
    (_hstatus : 400 ≤ r.status) (hfetch : w.fetch url = .success r)
    (hcontent : r.content = some c)
    (hopen : w.openOk (savePathOf dir (assetName url)) = true) :
    fetch_url w url = some r ∧
    download_single_asset w fs url dir =
      (true, fs ++ [⟨savePathOf dir (assetName url), isBinaryName (assetName url),
        if isBinaryName (assetName url) then .binary c
        else .textual (utf8DecodeIgnore c)⟩]) := by
  refine ⟨by simp [fetch_url, hfetch], ?_⟩
  simp [download_single_asset, fetch_url, hfetch, hcontent, save_asset, hopen]

/-- Witness for C10: a world answering every GET with a completed status
500 exchange still has its body written by `download_single_asset`. -/
theorem C10_witness :
    400 ≤ (500 : Nat) ∧
    download_single_asset wError500 [] "https://x/download?tag=a.raw" "out" =
      (true, [⟨"out/a.raw", true, .binary [104]⟩]) := by
  have h := C10_error_status_written wError500 "https://x/download?tag=a.raw" "out" []
    ⟨500, "err", some [104]⟩ [104] (by decide) rfl rfl (by decide)
  refine ⟨by decide, ?_⟩
  rw [h.2]
  decide

/-- C8: the binary flag passed to the asset writer on every write
performed by `download_single_asset` is set if and only if the derived
name contains `.raw` or `.tar.gz` as a substring, anywhere in the name. -/
theorem C8_binary_flag_iff_substring (w : World) (fs : List WriteOp) (url dir : String) :
    ∀ op ∈ (download_single_asset w fs url dir).2.drop fs.length,
      (op.binMode = true ↔
        (".raw".data <:+: (assetName url).data ∨
         ".tar.gz".data <:+: (assetName url).data)) := by
  intro op hop
  have hgoal : op.binMode = isBinaryName (assetName url) := by
    unfold download_single_asset at hop
    cases hf : w.fetch url with
    | connectTimeout => simp [fetch_url, hf, List.drop_length] at hop
    | requestError => simp [fetch_url, hf, List.drop_length] at hop
    | success r =>
      cases hc : r.content with
      | none => simp [fetch_url, hf, hc, List.drop_length] at hop
      | some c =>
        simp only [fetch_url, hf, hc] at hop
        unfold save_asset at hop
        by_cases ho : w.openOk (savePathOf dir (assetName url)) = true
        · simp [ho, List.drop_left] at hop
          rw [hop]
        · simp [ho, List.drop_length] at hop
  rw [hgoal]
  simp [isBinaryName, Bool.or_eq_true, containsSub_iff_isInfix]

/-- Witness for C8: the single write performed for a `tag=a.raw` asset
carries the binary flag, and `.raw` is indeed a substring of the name. -/
theorem C8_witness :
    (⟨"out/a.raw", true, FileContent.binary [104, 105]⟩ : WriteOp).binMode = true ↔
      (".raw".data <:+: (assetName "https://x/download?tag=a.raw").data ∨
       ".tar.gz".data <:+: (assetName "https://x/download?tag=a.raw").data) :=
  C8_binary_flag_iff_substring wSample [] "https://x/download?tag=a.raw" "out"
    ⟨"out/a.raw", true, FileContent.binary [104, 105]⟩ (by decide)

/-- `takeWhile` of a list all of whose elements pass is the list itself. -/
theorem takeWhile_all {α : Type} (p : α → Bool) :
    ∀ A : List α, (∀ x ∈ A, p x = true) → A.takeWhile p = A := by
  intro A
  induction A with
  | nil => intro _; rfl
  | cons a A ih =>
    intro h
    rw [List.takeWhile_cons, if_pos (h a (List.mem_cons_self a A)),
      ih (fun x hx => h x (List.mem_cons_of_mem a hx))]

/-- `takeWhile` runs past a fully-passing front segment. -/
theorem takeWhile_append_all {α : Type} (p : α → Bool) :
    ∀ A B : List α, (∀ x ∈ A, p x = true) →
      (A ++ B).takeWhile p = A ++ B.takeWhile p := by
  intro A
  induction A with
  | nil => intro B _; rfl
  | cons a A ih =>
    intro B h
    rw [List.cons_append, List.takeWhile_cons, if_pos (h a (List.mem_cons_self a A)),
      ih B (fun x hx => h x (List.mem_cons_of_mem a hx)), List.cons_append]

/-- `takeWhile` stops inside a front segment containing a failure. -/
theorem takeWhile_append_stop {α : Type} (p : α → Bool) :
    ∀ A B : List α, (∃ x ∈ A, p x = false) →
      (A ++ B).takeWhile p = A.takeWhile p := by
  intro A
  induction A with
  | nil => intro B h; simp at h
  | cons a A ih =>
    intro B h
    by_cases ha : p a = true
    · rw [List.cons_append, List.takeWhile_cons, if_pos ha, List.takeWhile_cons, if_pos ha]
      obtain ⟨x, hx, hpx⟩ := h
      rcases List.mem_cons.mp hx with hxa | hxA
      · subst hxa; rw [ha] at hpx; cases hpx
      · rw [ih B ⟨x, hxA, hpx⟩]
    · have ha' : p a = false := Bool.eq_false_iff.mpr ha
      rw [List.cons_append, List.takeWhile_cons, if_neg ha, List.takeWhile_cons, if_neg ha]

/-- Dropping a failing last element does not change `takeWhile`. -/
theorem takeWhile_append_single {α : Type} (p : α → Bool) (c : α) (hc : p c = false) :
    ∀ A : List α, (A ++ [c]).takeWhile p = A.takeWhile p := by
  intro A
  by_cases h : ∀ x ∈ A, p x = true
  · rw [takeWhile_append_all p A [c] h, takeWhile_all p A h, List.takeWhile_cons,
      if_neg (by simp [hc]), List.append_nil]
  · push_neg at h
    obtain ⟨x, hx, hpx⟩ := h
    exact takeWhile_append_stop p A [c] ⟨x, hx, Bool.eq_false_iff.mpr hpx⟩

/-- The split scanner never produces an empty list of parts. -/
theorem splitGo_ne_nil (s0 : Char) (sr : List Char) :
    ∀ (n : Nat) (l : List Char), splitGo s0 sr n l ≠ [] := by
  intro n l
  cases n with
  | zero => cases l <;> simp [splitGo]
  | succ n =>
    cases l with
    | nil => simp [splitGo]
    | cons c rest =>
      simp only [splitGo]
      by_cases hc : (c == s0 && sr.isPrefixOf rest) = true
      · rw [if_pos hc]; simp
      · rw [if_neg hc]
        cases hS : splitGo s0 sr n rest <;> simp

/-- Joining the parts with the separator reconstructs the input: the
parts returned by the scanner are exactly the fragments between the
(non-overlapping, left-to-right) separator occurrences. -/
theorem splitGo_join (s0 : Char) (sr : List Char) :
    ∀ (n : Nat) (l : List Char), l.length ≤ n →
      joinSep (s0 :: sr) (splitGo s0 sr n l) = l := by
  intro n
  induction n with
  | zero =>
    intro l hl
    have : l = [] := List.eq_nil_of_length_eq_zero (Nat.le_zero.mp hl)
    subst this; rfl
  | succ n ih =>
    intro l hl
    cases l with
    | nil => rfl
    | cons c rest =>
      have hrest : rest.length ≤ n := Nat.le_of_succ_le_succ hl
      simp only [splitGo]
      by_cases hc : (c == s0 && sr.isPrefixOf rest) = true
      · rw [if_pos hc]
        obtain ⟨h1, h2⟩ : (c == s0) = true ∧ sr.isPrefixOf rest = true := by
          simpa using hc
        have hcs : c = s0 := beq_iff_eq.mp h1
        obtain ⟨u, hu⟩ := List.isPrefixOf_iff_prefix.mp h2
        have hdrop : rest.drop sr.length = u := by
          rw [← hu]; exact List.drop_left sr u
        have hlen : (rest.drop sr.length).length ≤ n := by
          rw [List.length_drop]; omega
        cases hS : splitGo s0 sr n (rest.drop sr.length) with
        | nil => exact absurd hS (splitGo_ne_nil s0 sr n _)
        | cons y t =>
          have hj : joinSep (s0 :: sr) (y :: t) = rest.drop sr.length := by
            rw [← hS]; exact ih _ hlen
          show [] ++ (s0 :: sr) ++ joinSep (s0 :: sr) (y :: t) = c :: rest
          rw [hj, hdrop, hcs, ← hu]
          simp
      · rw [if_neg hc]
        cases hS : splitGo s0 sr n rest with
        | nil => exact absurd hS (splitGo_ne_nil s0 sr n rest)
        | cons y t =>
          have hj : joinSep (s0 :: sr) (y :: t) = rest := by
            rw [← hS]; exact ih rest hrest
          cases t with
          | nil =>
            show c :: y = c :: rest
            rw [show y = rest from hj]
          | cons z t' =>
            show (c :: y) ++ (s0 :: sr) ++ joinSep (s0 :: sr) (z :: t') = c :: rest
            rw [← hj]
            simp [joinSep]

/-- The first part produced by the scanner is a prefix of the input. -/
theorem splitGo_head_prefix (s0 : Char) (sr : List Char) (n : Nat) (l : List Char)
    (hl : l.length ≤ n) {y : List Char} {t : List (List Char)}
    (hS : splitGo s0 sr n l = y :: t) : y <+: l := by
  have hj := splitGo_join s0 sr n l hl
  rw [hS] at hj
  cases t with
  | nil => exact hj ▸ List.prefix_refl y
  | cons z t' =>
    refine ⟨(s0 :: sr) ++ joinSep (s0 :: sr) (z :: t'), ?_⟩
    rw [← hj]
    simp [joinSep]

/-- No part produced by the scanner contains the separator. -/
theorem splitGo_parts_no_sep (s0 : Char) (sr : List Char) :
    ∀ (n : Nat) (l : List Char), l.length ≤ n →
      ∀ p ∈ splitGo s0 sr n l, ¬ (s0 :: sr) <:+: p := by
  intro n
  induction n with
  | zero =>
    intro l hl
    have : l = [] := List.eq_nil_of_length_eq_zero (Nat.le_zero.mp hl)
    subst this
    intro p hp
    simp only [splitGo, List.mem_singleton] at hp
    subst hp
    simp [List.infix_nil]
  | succ n ih =>
    intro l hl
    cases l with
    | nil =>
      intro p hp
      simp only [splitGo, List.mem_singleton] at hp
      subst hp
      simp [List.infix_nil]
    | cons c rest =>
      have hrest : rest.length ≤ n := Nat.le_of_succ_le_succ hl
      intro p hp
      simp only [splitGo] at hp
      by_cases hc : (c == s0 && sr.isPrefixOf rest) = true
      · rw [if_pos hc] at hp
        have hlen : (rest.drop sr.length).length ≤ n := by
          rw [List.length_drop]; omega
        rcases List.mem_cons.mp hp with hpe | hpm
        · subst hpe; simp [List.infix_nil]
        · exact ih (rest.drop sr.length) hlen p hpm
      · rw [if_neg hc] at hp
        cases hS : splitGo s0 sr n rest with
        | nil => exact absurd hS (splitGo_ne_nil s0 sr n rest)
        | cons y t =>
          rw [hS] at hp
          rcases List.mem_cons.mp hp with hpe | hpm
          · subst hpe
            intro hinf
            rcases List.infix_cons_iff.mp hinf with hpre | hinfy
            · obtain ⟨hcs, hsry⟩ := List.cons_prefix_cons.mp hpre
              have hyrest : y <+: rest := splitGo_head_prefix s0 sr n rest hrest hS
              have hsr : sr.isPrefixOf rest = true :=
                List.isPrefixOf_iff_prefix.mpr (hsry.trans hyrest)
              exact hc (by rw [beq_iff_eq.mpr hcs.symm, hsr]; rfl)
            · exact ih rest hrest y (hS ▸ List.mem_cons_self y t) hinfy
          · exact ih rest hrest p (hS ▸ List.mem_cons_of_mem y hpm)

/-- For a single-character separator, the first part is the prefix of the
input before the first occurrence of the separator. -/
theorem splitGo_headD_takeWhile (s0 : Char) :
    ∀ (n : Nat) (l : List Char), l.length ≤ n →
      (splitGo s0 [] n l).headD [] = l.takeWhile (fun c => !(c == s0)) := by
  intro n
  induction n with
  | zero =>
    intro l hl
    have : l = [] := List.eq_nil_of_length_eq_zero (Nat.le_zero.mp hl)
    subst this; rfl
  | succ n ih =>
    intro l hl
    cases l with
    | nil => rfl
    | cons c rest =>
      have hrest : rest.length ≤ n := Nat.le_of_succ_le_succ hl
      simp only [splitGo]
      by_cases hcs : c = s0
      · rw [if_pos (by simp [hcs])]
        rw [List.takeWhile_cons, if_neg (by simp [hcs])]
        rfl
      · rw [if_neg (by simp [hcs])]
        cases hS : splitGo s0 [] n rest with
        | nil => exact absurd hS (splitGo_ne_nil s0 [] n rest)
        | cons y t =>
          have hy : y = rest.takeWhile (fun c => !(c == s0)) := by
            have := ih rest hrest
            rw [hS] at this
            exact this
          rw [List.takeWhile_cons, if_pos (by simp [hcs])]
          show c :: y = c :: rest.takeWhile (fun c => !(c == s0))
          rw [hy]

/-- A list without the separator character is returned as a single part. -/
theorem splitGo_of_notMem (s0 : Char) :
    ∀ (n : Nat) (l : List Char), s0 ∉ l → splitGo s0 [] n l = [l] := by
  intro n
  induction n with
  | zero => intro l _; cases l <;> rfl
  | succ n ih =>
    intro l hmem
    cases l with
    | nil => rfl
    | cons c rest =>
      have hcs : ¬ c = s0 := fun h => hmem (h ▸ List.mem_cons_self c rest)
      have hrest : s0 ∉ rest := fun h => hmem (List.mem_cons_of_mem c h)
      simp only [splitGo]
      rw [if_neg (by simp [hcs]), ih rest hrest]

/-- Conversely, a single returned part means the separator character does
not occur (given enough fuel). -/
theorem notMem_of_splitGo_single (s0 : Char) :
    ∀ (n : Nat) (l x : List Char), l.length ≤ n → splitGo s0 [] n l = [x] → s0 ∉ l := by
  intro n
  induction n with
  | zero =>
    intro l x hl _
    have : l = [] := List.eq_nil_of_length_eq_zero (Nat.le_zero.mp hl)
    subst this; simp
  | succ n ih =>
    intro l x hl hS
    cases l with
    | nil => simp
    | cons c rest =>
      have hrest : rest.length ≤ n := Nat.le_of_succ_le_succ hl
      simp only [splitGo] at hS
      by_cases hcs : c = s0
      · rw [if_pos (by simp [hcs])] at hS
        have htl : splitGo s0 [] n (rest.drop ([] : List Char).length) = [] := by
          have := congrArg List.tail hS
          simpa using this
        exact absurd htl (splitGo_ne_nil s0 [] n _)
      · rw [if_neg (by simp [hcs])] at hS
        cases hT : splitGo s0 [] n rest with
        | nil => exact absurd hT (splitGo_ne_nil s0 [] n rest)
        | cons y t =>
          rw [hT] at hS
          have ht : t = [] := by
            have := congrArg List.tail hS
            simpa using this
          subst ht
          have hnr : s0 ∉ rest := ih rest y hrest hT
          intro hmem
          rcases List.mem_cons.mp hmem with h | h
          · exact hcs h.symm
          · exact hnr h

/-- For a single-character separator, the last part is the suffix of the
input after the last occurrence of the separator. -/
theorem splitGo_getLastD_takeWhile (s0 : Char) :
    ∀ (n : Nat) (l : List Char), l.length ≤ n →
      (splitGo s0 [] n l).getLastD [] =
        (l.reverse.takeWhile (fun c => !(c == s0))).reverse := by
  intro n
  induction n with
  | zero =>
    intro l hl
    have : l = [] := List.eq_nil_of_length_eq_zero (Nat.le_zero.mp hl)
    subst this; rfl
  | succ n ih =>
    intro l hl
    cases l with
    | nil => rfl
    | cons c rest =>
      have hrest : rest.length ≤ n := Nat.le_of_succ_le_succ hl
      simp only [splitGo]
      by_cases hcs : c = s0
      · rw [if_pos (by simp [hcs])]
        have hdz : rest.drop ([] : List Char).length = rest := List.drop_zero rest
        rw [List.getLastD_cons]
        have lhs_eq : (splitGo s0 [] n (rest.drop ([] : List Char).length)).getLastD [] =
            (rest.reverse.takeWhile (fun c => !(c == s0))).reverse := by
          rw [hdz]; exact ih rest hrest
        have rhs_eq : ((c :: rest).reverse.takeWhile (fun c => !(c == s0))).reverse =
            (rest.reverse.takeWhile (fun c => !(c == s0))).reverse := by
          rw [show (c :: rest).reverse = rest.reverse ++ [c] from by simp]
          rw [takeWhile_append_single _ c (by simp [hcs])]
        rw [rhs_eq, ← lhs_eq]
      · rw [if_neg (by simp [hcs])]
        cases hS : splitGo s0 [] n rest with
        | nil => exact absurd hS (splitGo_ne_nil s0 [] n rest)
        | cons y t =>
          have hIH : (y :: t).getLastD [] =
              (rest.reverse.takeWhile (fun c => !(c == s0))).reverse := by
            rw [← hS]; exact ih rest hrest
          cases t with
          | nil =>
            have hnr : s0 ∉ rest := notMem_of_splitGo_single s0 n rest y hrest hS
            have hyr : y = rest := by
              have hj := splitGo_join s0 [] n rest hrest
              rw [hS] at hj
              simpa [joinSep] using hj
            show ((c :: y) :: ([] : List (List Char))).getLastD [] =
              ((c :: rest).reverse.takeWhile (fun c => !(c == s0))).reverse
            rw [List.getLastD_cons]
            have hall : ∀ x ∈ rest.reverse, (fun c => !(c == s0)) x = true := by
              intro x hx
              have : x ∈ rest := List.mem_reverse.mp hx
              simp only [Bool.not_eq_true']
              exact beq_eq_false_iff_ne.mpr (fun h => hnr (h ▸ this))
            rw [show (c :: rest).reverse = rest.reverse ++ [c] from by simp]
            rw [takeWhile_append_all _ rest.reverse [c] hall]
            rw [List.takeWhile_cons, if_pos (by simp [hcs])]
            simp [hyr]
          | cons z t' =>
            have hsr : s0 ∈ rest := by
              by_contra hn
              have := splitGo_of_notMem s0 n rest hn
              rw [hS] at this
              simp at this
            show ((c :: y) :: z :: t').getLastD [] =
              ((c :: rest).reverse.takeWhile (fun c => !(c == s0))).reverse
            rw [List.getLastD_cons]
            have h1 : (z :: t').getLastD (c :: y) = (z :: t').getLastD y := by
              rw [List.getLastD_cons, List.getLastD_cons]
            have h2 := List.getLastD_cons ([] : List Char) y (z :: t')
            rw [h1, ← h2, hIH]
            have hstop : ∃ x ∈ rest.reverse, (fun c => !(c == s0)) x = false :=
              ⟨s0, List.mem_reverse.mpr hsr, by simp⟩
            rw [show (c :: rest).reverse = rest.reverse ++ [c] from by simp]
            rw [takeWhile_append_stop _ rest.reverse [c] hstop]

/-- C6: `save_asset` writes to the path formed from the output directory
and the final path segment of the name (the suffix after the last slash);
in binary mode the written content is byte-identical to the input, in text
mode it is the UTF-8 decoding with undecodable sequences dropped (a total
function — decoding never raises); an I/O error on open/write yields
`false` with nothing written, and is never propagated as an exception. -/
theorem C6_save_asset (w : World) (fs : List WriteOp) (dir name : String)
    (content : List Nat) (is_binary : Bool) :
    savePathOf dir name =
      os_path_join dir
        (String.mk ((name.data.reverse.takeWhile (fun c => !(c == '/'))).reverse)) ∧
    (w.openOk (savePathOf dir name) = false →
      save_asset w fs dir name content is_binary = (false, fs)) ∧
    (w.openOk (savePathOf dir name) = true →
      save_asset w fs dir name content is_binary =
        (true, fs ++ [⟨savePathOf dir name, is_binary,
          if is_binary then .binary content else .textual (utf8DecodeIgnore content)⟩])) := by
  refine ⟨?_, ?_, ?_⟩
  · unfold savePathOf
    have h : pySplit "/" name.data = splitGo '/' [] name.data.length name.data := rfl
    rw [h, splitGo_getLastD_takeWhile '/' name.data.length name.data le_rfl]
  · intro h
    simp [save_asset, h]
  · intro h
    simp [save_asset, h]

/-- Witness for C6: a successful text write decodes the bytes, and an
unwritable target yields `false` without raising. -/
theorem C6_witness :
    save_asset wSample [] "out" "a/b/c.txt" [104, 105] false =
      (true, [⟨"out/c.txt", false, .textual "hi"⟩]) ∧
    save_asset wTimeout [] "out" "c.bin" [0] true = (false, []) := by
  have h1 := (C6_save_asset wSample [] "out" "a/b/c.txt" [104, 105] false).2.2 (by decide)
  have h2 := (C6_save_asset wTimeout [] "out" "c.bin" [0] true).2.1 (by decide)
  exact ⟨by rw [h1]; decide, h2⟩

/-- C4 counterexample: for the URL `http://a/b?x=1&y=2`, in which `tag=`
does not occur, the derived asset name is `http://a/b?x=1` — not the whole
URL string as the claim states. -/
theorem C4_counterexample :
    (¬ "tag=".data <:+: "http://a/b?x=1&y=2".data) ∧
    assetName "http://a/b?x=1&y=2" = "http://a/b?x=1" ∧
    assetName "http://a/b?x=1&y=2" ≠ "http://a/b?x=1&y=2" := by
  refine ⟨?_, by decide, by decide⟩
  rw [← containsSub_iff_isInfix]
  decide

/-- C4 (amended): splitting the URL at the (non-overlapping, left-to-
right) occurrences of `tag=` yields parts none of which contains `tag=`
and which interleaved with `tag=` reconstruct the URL; the asset name is
the last such part truncated before its first `&`.  In particular, with a
single `tag=` occurrence the name is the substring after `tag=` and before
the next `&`; when `tag=` is absent the name is the prefix of the URL up
to the first `&` (the whole URL only when it contains no `&`). -/
theorem C4_amended_name (url : String) :
    ∃ parts : List (List Char),
      pySplit "tag=" url.data = parts ∧
      parts ≠ [] ∧
      joinSep "tag=".data parts = url.data ∧
      (∀ p ∈ parts, ¬ "tag=".data <:+: p) ∧
      assetName url = String.mk ((parts.getLastD []).takeWhile (fun c => !(c == '&'))) := by
  have hrepr : pySplit "tag=" url.data =
      splitGo 't' ['a', 'g', '='] url.data.length url.data := rfl
  have hsep : "tag=".data = 't' :: ['a', 'g', '='] := rfl
  refine ⟨pySplit "tag=" url.data, rfl, ?_, ?_, ?_, ?_⟩
  · rw [hrepr]
    exact splitGo_ne_nil _ _ _ _
  · rw [hrepr, hsep]
    exact splitGo_join 't' ['a', 'g', '='] url.data.length url.data le_rfl
  · rw [hrepr, hsep]
    exact splitGo_parts_no_sep 't' ['a', 'g', '='] url.data.length url.data le_rfl
  · have h2 : pySplit "&" ((pySplit "tag=" url.data).getLastD []) =
        splitGo '&' [] ((pySplit "tag=" url.data).getLastD []).length
          ((pySplit "tag=" url.data).getLastD []) := rfl
    unfold assetName
    rw [h2, splitGo_headD_takeWhile '&' _ _ le_rfl]

/-- Witness for the amended C4 at a concrete URL with one `tag=`
occurrence and a trailing `&` parameter. -/
theorem C4_amended_witness :
    ∃ parts : List (List Char),
      pySplit "tag=" "https://x/download?tag=a.raw&k=1".data = parts ∧
      parts ≠ [] ∧
      joinSep "tag=".data parts = "https://x/download?tag=a.raw&k=1".data ∧
      (∀ p ∈ parts, ¬ "tag=".data <:+: p) ∧
      assetName "https://x/download?tag=a.raw&k=1" =
        String.mk ((parts.getLastD []).takeWhile (fun c => !(c == '&'))) :=
  C4_amended_name "https://x/download?tag=a.raw&k=1"

/-- Folding list-extension over a list is concatenation of the per-item
results after the initial accumulator. -/
theorem foldl_extend {α β : Type} (f : α → List β) :
    ∀ (items : List α) (init : List β),
      items.foldl (fun acc x => acc ++ f x) init = init ++ (items.map f).flatten := by
  intro items
  induction items with
  | nil => intro init; simp
  | cons x xs ih => intro init; simp [ih]

/-- C5: `extract_asset_links` returns exactly the hrefs of all anchors
inside `assets`-classed table cells, verbatim and in document order,
followed by the hrefs of all anchors inside `repro`-classed table cells
with the site origin prepended, in document order; the result is empty
when no such cells exist; on the test fixture (one `assets` cell with two
anchors, one `repro` cell with one anchor) it is exactly those 3 links in
that order. -/
theorem C5_extract_asset_links :
    (∀ soup : Node,
      extract_asset_links soup =
        ((findAllNode (tdWith "assets") soup).map anchorHrefsVerbatim).flatten ++
        (((findAllNode (tdWith "repro") soup).map anchorHrefsVerbatim).flatten).map
          (fun h => BASE_URL ++ h)) ∧
    (∀ soup : Node,
      findAllNode (tdWith "assets") soup = [] →
      findAllNode (tdWith "repro") soup = [] →
      extract_asset_links soup = []) ∧
    extract_asset_links samplePage =
      ["/download?tag=test.raw", "/download?tag=test.txt",
       "https://syzkaller.appspot.com/repro?tag=repro.c"] := by
  have hgen : ∀ soup : Node,
      extract_asset_links soup =
        ((findAllNode (tdWith "assets") soup).map anchorHrefsVerbatim).flatten ++
        (((findAllNode (tdWith "repro") soup).map anchorHrefsVerbatim).flatten).map
          (fun h => BASE_URL ++ h) := by
    intro soup
    simp only [extract_asset_links]
    rw [foldl_extend, foldl_extend]
    simp [List.map_flatten, List.map_map, Function.comp_def]
  refine ⟨hgen, fun soup h1 h2 => by rw [hgen soup, h1, h2]; rfl, by rw [hgen samplePage]; decide⟩

/-- Witness for C5: a page with no `assets` or `repro` cells yields the
empty link sequence. -/
theorem C5_witness : extract_asset_links emptyPage = [] :=
  C5_extract_asset_links.2.1 emptyPage rfl rfl

/-- The row loop of `extract_bug_links`: when every row has a title cell
holding an href anchor, it produces the parallel lists of summaries and
origin-prefixed links, one entry per row. -/
theorem buildRows_ok :
    ∀ rows : List Node, (∀ row ∈ rows, (rowTitleHref row).isSome = true) →
      buildRows rows =
        .ok (rows.map rowSummary,
             rows.map (fun r => BASE_URL ++ (rowTitleHref r).getD "")) := by
  intro rows
  induction rows with
  | nil => intro _; rfl
  | cons row rest ih =>
    intro h
    have hr := h row (List.mem_cons_self row rest)
    have hrest : ∀ r ∈ rest, (rowTitleHref r).isSome = true :=
      fun r hm => h r (List.mem_cons_of_mem row hm)
    cases htd : (findAllNode (tdWith "title") row).head? with
    | none => rw [rowTitleHref, htd] at hr; simp at hr
    | some tdTitle =>
      cases ha : (findAllNode isAnchorHref tdTitle).head? with
      | none => rw [rowTitleHref, htd] at hr; simp [ha] at hr
      | some a =>
        have hlink : rowTitleHref row = a.hrefAttr := by
          rw [rowTitleHref, htd]; simp [ha]
        simp only [buildRows, htd, ha, ih hrest]
        simp [rowSummary, hlink]

/-- C3: on a parsed page with at least two table-body elements,
`extract_bug_links` iterates the rows of the second table body, skips the
header row, and returns two parallel ordered sequences of equal length —
one summary and one absolute link (origin prepended to the title-cell
anchor's href) per remaining row; with fewer than two table bodies it
fails with an index error. -/
theorem C3_extract_bug_links (soup : Node) :
    ((findAllNode (isTag "tbody") soup).length < 2 →
      extract_bug_links soup = .error .indexError) ∧
    (∀ table, (findAllNode (isTag "tbody") soup)[1]? = some table →
      (∀ row ∈ (findAllNode (isTag "tr") table).drop 1, (rowTitleHref row).isSome = true) →
      extract_bug_links soup =
        .ok (((findAllNode (isTag "tr") table).drop 1).map rowSummary,
             ((findAllNode (isTag "tr") table).drop 1).map
               (fun r => BASE_URL ++ (rowTitleHref r).getD "")) ∧
      (((findAllNode (isTag "tr") table).drop 1).map rowSummary).length =
        (((findAllNode (isTag "tr") table).drop 1).map
          (fun r => BASE_URL ++ (rowTitleHref r).getD "")).length) := by
  constructor
  · intro hlen
    unfold extract_bug_links
    rw [List.getElem?_eq_none (by omega)]
  · intro table htable hrows
    unfold extract_bug_links
    rw [htable]
    exact ⟨buildRows_ok _ hrows, by simp⟩

/-- Witness for C3: on the two-tbody listing fixture, the second table
body's single data row yields one summary and one absolute link. -/
theorem C3_witness :
    extract_bug_links listingPage =
      .ok (["Bug A 5"], ["https://syzkaller.appspot.com/bug?id=123"]) := by
  have h := ((C3_extract_bug_links listingPage).2
    (.elem "tbody" [] none
      [ .elem "tr" [] none [.elem "td" [] none [.text "Title"]]
      , .elem "tr" [] none
        [ .elem "td" ["title"] none [.elem "a" [] (some "/bug?id=123") [.text "Bug A"]]
        , .elem "td" ["stat"] none [.text "5"] ] ])
    rfl (by decide)).1
  rw [h]
  rfl

/-- The boolean returned by `download_single_asset` does not depend on the
writes performed so far. -/
theorem dsa_fst_indep (w : World) (url dir : String) :
    ∀ fs : List WriteOp, (download_single_asset w fs url dir).1 = dsaOk w url dir := by
  intro fs
  unfold dsaOk download_single_asset
  cases hf : w.fetch url with
  | connectTimeout => simp [fetch_url, hf]
  | requestError => simp [fetch_url, hf]
  | success r =>
    cases hc : r.content with
    | none => simp [fetch_url, hf, hc]
    | some c =>
      by_cases ho : w.openOk (savePathOf dir (assetName url)) = true <;>
        simp [fetch_url, hf, hc, save_asset, ho]

/-- The success counter of the asset loop in `download_assets` counts the
links whose single-asset download succeeds. -/
theorem da_fold_count (w : World) (dir : String) :
    ∀ (links : List String) (init : Nat) (fs : List WriteOp),
      (links.foldl (fun st link =>
        (if (download_single_asset w st.2 link dir).1 then st.1 + 1 else st.1,
         (download_single_asset w st.2 link dir).2)) (init, fs)).1
      = init + links.countP (fun l => dsaOk w l dir) := by
  intro links
  induction links with
  | nil => intro init fs; simp
  | cons l ls ih =>
    intro init fs
    simp only [List.foldl_cons, List.countP_cons]
    rw [ih, dsa_fst_indep w l dir fs]
    by_cases h : dsaOk w l dir = true <;> simp [h] <;> omega

/-- C1: `download_assets` reports page-level failure when the fetch fails
or the fetched page has no title; success (warning only) when the
extracted asset-link list is empty; failure when the list is non-empty and
every single-asset download fails; and success as soon as at least one
asset download succeeds, even when others fail. -/
theorem C1_download_assets_policy (w : World) (fs : List WriteOp)
    (url release : String) (is_main_page : Bool) :
    (fetch_url w url = none →
      (download_assets w fs url release is_main_page).1 = false) ∧
    (∀ r, fetch_url w url = some r → soupTitle (w.parse r.text) = none →
      (download_assets w fs url release is_main_page).1 = false) ∧
    (∀ r t, fetch_url w url = some r → soupTitle (w.parse r.text) = some t →
      extract_asset_links (w.parse r.text) = [] →
      (download_assets w fs url release is_main_page).1 = true) ∧
    (∀ r t, fetch_url w url = some r → soupTitle (w.parse r.text) = some t →
      extract_asset_links (w.parse r.text) ≠ [] →
      (∀ l ∈ extract_asset_links (w.parse r.text),
        (download_single_asset w fs l (pageOutputDir release is_main_page t)).1 = false) →
      (download_assets w fs url release is_main_page).1 = false) ∧
    (∀ r t, fetch_url w url = some r → soupTitle (w.parse r.text) = some t →
      (∃ l ∈ extract_asset_links (w.parse r.text),
        (download_single_asset w fs l (pageOutputDir release is_main_page t)).1 = true) →
      (download_assets w fs url release is_main_page).1 = true) := by
  refine ⟨?_, ?_, ?_, ?_, ?_⟩
  · intro h
    simp [download_assets, h]
  · intro r hr ht
    simp [download_assets, hr, ht]
  · intro r t hr ht hempty
    simp [download_assets, hr, ht, hempty]
  · intro r t hr ht hne hall
    have hcount : (extract_asset_links (w.parse r.text)).countP
        (fun l => dsaOk w l (pageOutputDir release is_main_page t)) = 0 :=
      List.countP_eq_zero.mpr (fun l hl => by
        rw [← dsa_fst_indep w l (pageOutputDir release is_main_page t) fs]
        simp [hall l hl])
    simp only [download_assets, hr, ht]
    rw [if_neg (by simpa [List.isEmpty_iff] using hne)]
    simp only [da_fold_count, hcount]
    simp
  · intro r t hr ht hex
    obtain ⟨l, hl, hsucc⟩ := hex
    have hcount : 0 < (extract_asset_links (w.parse r.text)).countP
        (fun l => dsaOk w l (pageOutputDir release is_main_page t)) :=
      List.countP_pos_iff.mpr ⟨l, hl, by
        rw [← dsa_fst_indep w l (pageOutputDir release is_main_page t) fs]; exact hsucc⟩
    have hne : extract_asset_links (w.parse r.text) ≠ [] := List.ne_nil_of_mem hl
    simp only [download_assets, hr, ht]
    rw [if_neg (by simpa [List.isEmpty_iff] using hne)]
    simp only [da_fold_count]
    rw [if_neg (by omega)]

/-- Witness for C1: on the test-fixture page with three asset links, all
of which download successfully, the page-level outcome is success. -/
theorem C1_witness :
    (download_assets wSample [] "https://syzkaller.appspot.com/bug?id=1" "upstream" false).1
      = true :=
  (C1_download_assets_policy wSample [] "https://syzkaller.appspot.com/bug?id=1"
      "upstream" false).2.2.2.2
    ⟨200, "page", some [104, 105]⟩
    (.elem "title" [] none [.text "Test Bug Title"])
    rfl rfl
    ⟨"/download?tag=test.raw", by decide, by decide⟩

/-- The boolean returned by `download_assets` does not depend on the
writes performed so far. -/
theorem da_fst_indep (w : World) (url release : String) (is_main_page : Bool) :
    ∀ fs : List WriteOp,
      (download_assets w fs url release is_main_page).1 = daOk w url release is_main_page := by
  intro fs
  unfold daOk download_assets
  cases hf : fetch_url w url with
  | none => simp
  | some r =>
    simp only []
    cases ht : soupTitle (w.parse r.text) with
    | none => simp
    | some t =>
      simp only []
      by_cases he : (extract_asset_links (w.parse r.text)).isEmpty = true
      · rw [if_pos he, if_pos he]
      · rw [if_neg he, if_neg he]
        simp only [da_fold_count, apply_ite Prod.fst]

/-- The failure list accumulated by the bug-page loop in `main` is the
filter of the links whose asset pass fails. -/
theorem main_fold_failed (w : World) (release : String) :
    ∀ (links : List String) (acc : List String) (fs : List WriteOp),
      (links.foldl (fun (acc2 : List String × List WriteOp) u =>
        (if (download_assets w acc2.2 u release false).1 then acc2.1 else acc2.1 ++ [u],
         (download_assets w acc2.2 u release false).2)) (acc, fs)).1
      = acc ++ links.filter (fun u => !(daOk w u release false)) := by
  intro links
  induction links with
  | nil => intro acc fs; simp
  | cons l ls ih =>
    intro acc fs
    simp only [List.foldl_cons, List.filter_cons]
    rw [ih, da_fst_indep w l release false fs]
    by_cases h : daOk w l release false = true <;> simp [h]

/-- C2: `main` exits non-zero when the listing page cannot be fetched,
when the listing page's own asset pass fails, or when the bug-link
extraction raises (caught by the outer handler); when the listing pass
succeeds and extraction returns links, every bug page is attempted, each
failing bug page is only recorded, and the run completes with exit code
0. -/
theorem C2_main_policy (w : World) (release listingUrl : String)
    (hrel : releaseUrl release = some listingUrl) :
    (fetch_url w listingUrl = none → (main w release).exitCode ≠ 0) ∧
    (∀ r, fetch_url w listingUrl = some r →
      (download_assets w [] listingUrl release true).1 = false →
      (main w release).exitCode ≠ 0) ∧
    (∀ r e, fetch_url w listingUrl = some r →
      (download_assets w [] listingUrl release true).1 = true →
      extract_bug_links (w.parse r.text) = .error e →
      (main w release).exitCode ≠ 0) ∧
    (∀ r rows links, fetch_url w listingUrl = some r →
      (download_assets w [] listingUrl release true).1 = true →
      extract_bug_links (w.parse r.text) = .ok (rows, links) →
      (main w release).exitCode = 0 ∧
      (main w release).processed = links ∧
      (main w release).failedUrls =
        links.filter (fun u => !(daOk w u release false))) := by
  refine ⟨?_, ?_, ?_, ?_⟩
  · intro h
    simp [main, hrel, h]
  · intro r hr hda
    simp [main, hrel, hr, hda]
  · intro r e hr hda hebl
    simp [main, hrel, hr, hda, hebl]
  · intro r rows links hr hda hebl
    have hmain : main w release =
        ⟨0, links,
         (links.foldl (fun (acc2 : List String × List WriteOp) u =>
           (if (download_assets w acc2.2 u release false).1 then acc2.1 else acc2.1 ++ [u],
            (download_assets w acc2.2 u release false).2))
           ([], (download_assets w [] listingUrl release true).2)).1,
         (links.foldl (fun (acc2 : List String × List WriteOp) u =>
           (if (download_assets w acc2.2 u release false).1 then acc2.1 else acc2.1 ++ [u],
            (download_assets w acc2.2 u release false).2))
           ([], (download_assets w [] listingUrl release true).2)).2⟩ := by
      simp [main, hrel, hr, hda, hebl]
    rw [hmain]
    refine ⟨rfl, rfl, ?_⟩
    rw [main_fold_failed]
    rfl

/-- Witness for C2: in a world where the listing page succeeds with no
assets and the single linked bug page fails (no title), the run completes
with exit code 0, the bug page was attempted, and its URL is the one
recorded failure. -/
theorem C2_witness :
    (main wListing "upstream").exitCode = 0 ∧
    (main wListing "upstream").processed = ["https://syzkaller.appspot.com/bug?id=123"] ∧
    (main wListing "upstream").failedUrls = ["https://syzkaller.appspot.com/bug?id=123"] := by
  have h := (C2_main_policy wListing "upstream" UPSTREAM rfl).2.2.2
    ⟨200, UPSTREAM, some [104]⟩ ["Bug A 5"] ["https://syzkaller.appspot.com/bug?id=123"]
    rfl (by decide) rfl
  exact ⟨h.1, h.2.1, by rw [h.2.2]; decide⟩

end Syzbot
